import Mathlib

/-
  Verification of the Azure AI Search vector-store adapter and its OData
  filter translator.

  The filter translator embedded below is the `AzureAISearchFilterTranslator`
  class of `stores/aisearch/src/vector/filter.ts`, the module imported as
  `./filter` by `stores/aisearch/src/vector/index.ts`.  (The repository also
  carries an earlier, superseded variant of that file, which quoted field
  names containing special characters and recursed into `any`/`all`
  sub-filters; the current file does neither.)

  JavaScript strings are modelled by Lean `String`; `undefined`-able values
  by `Option`; JS truthiness of a string is "non-empty".  Scalar filter
  values carry the string rendering produced by the JS runtime for the two
  runtime-formatted cases (`Date.prototype.toISOString` and `String(number)`),
  since the translator uses those renderings opaquely.
-/

namespace Mastra
namespace AzureAISearchFilterTranslator

/-- Scalar value that can appear on the right-hand side of a comparison.
`date` carries the string produced by `value.toISOString()`; `num` carries
the string produced by JavaScript `String(value)` for a number. -/
inductive Value where
  | str (s : String)
  | date (isoString : String)
  | boolean (b : Bool)
  | null
  | undefined
  | num (jsString : String)
deriving DecidableEq

/-- Argument of the `any` / `all` collection operations:
`{ collection: string; predicate: string }`. -/
structure Quantifier where
  collection : String
  predicate : String
deriving DecidableEq

/-- The `AzureAISearchVectorFilter` interface: a flat record of optional
fields.  `dollarFilter` is the raw `$filter` field.  Mappings
(`Record<string, _>`) are association lists in `Object.entries` order. -/
inductive Filter where
  | mk
    (dollarFilter : Option String)
    (andF : Option (List Filter))
    (orF : Option (List Filter))
    (notF : Option Filter)
    (eq : Option (List (String × Value)))
    (ne : Option (List (String × Value)))
    (gt : Option (List (String × Value)))
    (ge : Option (List (String × Value)))
    (lt : Option (List (String × Value)))
    (le : Option (List (String × Value)))
    (containsF : Option (List (String × String)))
    (startsWith : Option (List (String × String)))
    (endsWith : Option (List (String × String)))
    (anyF : Option Quantifier)
    (allF : Option Quantifier)

/-- Accessor for the raw `$filter` field. -/
def Filter.dollarFilter : Filter → Option String
  | .mk d _ _ _ _ _ _ _ _ _ _ _ _ _ _ => d

/-- The inlined `value.replace(/'/g, "''")` of `formatValue`, on a character
list: every single-quote character is doubled. -/
def replaceQuotesList : List Char → List Char
  | [] => []
  | c :: cs => if c = '\'' then '\'' :: '\'' :: replaceQuotesList cs else c :: replaceQuotesList cs

/-- Model of `value.replace(/'/g, "''")` on strings. -/
def replaceQuotes (s : String) : String := String.mk (replaceQuotesList s.data)

/-- Model of `formatValue`: string values are single-quoted with embedded quotes
doubled; dates render as their ISO string, booleans as `true`/`false`,
`null`/`undefined` as `null`, numbers via their default string conversion. -/
def formatValue : Value → String
  | .str s => "'" ++ replaceQuotes s ++ "'"
  | .date isoString => isoString
  | .boolean b => if b then "true" else "false"
  | .null => "null"
  | .undefined => "null"
  | .num jsString => jsString

/-- Model of `escapeFieldName`: the current translator passes field names through
unchanged. -/
def escapeFieldName (field : String) : String := field

/-- Model of `translateComparison`: renders `<field> <operator> <formatted-value>`
for each entry of the mapping. -/
def translateComparison (comparison : List (String × Value)) (operator : String) : List String :=
  comparison.map (fun fv => escapeFieldName fv.1 ++ " " ++ operator ++ " " ++ formatValue fv.2)

/-- Model of `translateStringOperation`: `contains` becomes
`search.ismatch(<value>, '<field>')`; `startswith` / `endswith` become
`<functionName>(<field>, <value>)`. -/
def translateStringOperation (operation : List (String × String)) (functionName : String) : List String :=
  operation.map (fun fv =>
    if functionName = "contains" then
      "search.ismatch(" ++ formatValue (Value.str fv.2) ++ ", '" ++ fv.1 ++ "')"
    else
      functionName ++ "(" ++ escapeFieldName fv.1 ++ ", " ++ formatValue (Value.str fv.2) ++ ")")

/-- JavaScript `Array.prototype.join` with a separator. -/
def arrayJoin (sep : String) : List String → String
  | [] => ""
  | [c] => c
  | c :: cs => c ++ sep ++ arrayJoin sep cs

/-- Comparison field contribution: nothing when the field is absent,
otherwise `translateComparison` on its entries. -/
def optComparison : Option (List (String × Value)) → String → List String
  | none, _ => []
  | some l, operator => translateComparison l operator

/-- String-operation field contribution. -/
def optStringOperation : Option (List (String × String)) → String → List String
  | none, _ => []
  | some l, functionName => translateStringOperation l functionName

/-- The `and` / `or` field contribution: the non-empty child translations are
joined with the keyword and wrapped in one pair of parentheses when at
least one survives. -/
def parenGroup (keyword : String) (conds : List String) : List String :=
  if conds.isEmpty then [] else ["(" ++ arrayJoin keyword conds ++ ")"]

/-- The `not` field contribution: `not (<child>)` when the child translation is
non-empty. -/
def notGroup (cond : String) : List String :=
  if cond.isEmpty then [] else ["not (" ++ cond ++ ")"]

/-- The `any` / `all` field contribution:
`<collection>/any(<predicate>)` resp. `<collection>/all(<predicate>)`,
with the predicate inserted verbatim. -/
def collectionGroup (q : Option Quantifier) (keyword : String) : List String :=
  match q with
  | none => []
  | some q => [q.collection ++ keyword ++ q.predicate ++ ")"]

mutual

/-- The `conditions` array built by `translateFilter`, in the source's push
order: and, or, not, eq, ne, gt, ge, lt, le, contains, startsWith,
endsWith, any, all. -/
def nodeConditions : Filter → List String
  | .mk _ andF orF notF eqF neF gtF geF ltF leF containsF startsWithF endsWithF anyF allF =>
    parenGroup " and " (List.filter (fun s => !s.isEmpty) (optChildTranslations andF))
    ++ parenGroup " or " (List.filter (fun s => !s.isEmpty) (optChildTranslations orF))
    ++ notGroup (optChildTranslation notF)
    ++ optComparison eqF "eq"
    ++ optComparison neF "ne"
    ++ optComparison gtF "gt"
    ++ optComparison geF "ge"
    ++ optComparison ltF "lt"
    ++ optComparison leF "le"
    ++ optStringOperation containsF "contains"
    ++ optStringOperation startsWithF "startswith"
    ++ optStringOperation endsWithF "endswith"
    ++ collectionGroup anyF "/any("
    ++ collectionGroup allF "/all("

/-- Value of `filter.and.map(f => this.translateFilter(f))` when the field is
present, nothing otherwise (an absent field pushes no condition). -/
def optChildTranslations : Option (List Filter) → List String
  | none => []
  | some fs => childTranslations fs

/-- Mapping `translateFilter` over a list of children. -/
def childTranslations : List Filter → List String
  | [] => []
  | f :: fs => arrayJoin " and " (nodeConditions f) :: childTranslations fs

/-- Translation of an optional single child (`filter.not`); an absent child
contributes the empty string, which is then dropped. -/
def optChildTranslation : Option Filter → String
  | none => ""
  | some f => arrayJoin " and " (nodeConditions f)

end

/-- Model of `translateFilter`: join the node's collected conditions with `" and "`. -/
def translateFilter (f : Filter) : String :=
  arrayJoin " and " (nodeConditions f)

/-- ECMAScript whitespace and line terminators recognised by
`String.prototype.trim` (the Unicode `Zs` characters other than the ones
listed do not occur in this development). -/
def isJsSpace (c : Char) : Bool :=
  c = ' ' || c = '\t' || c = '\n' || c = '\r' || c = '\x0b' || c = '\x0c' ||
  c = '\u00A0' || c = '\uFEFF' || c = '\u2028' || c = '\u2029'

/-- JavaScript `String.prototype.trim`. -/
def jsTrim (s : String) : String :=
  String.mk (((s.data.dropWhile isJsSpace).reverse.dropWhile isJsSpace).reverse)

/-- JavaScript truthiness of an optional string: present and non-empty. -/
def truthyOptStr : Option String → Bool
  | none => false
  | some s => !s.isEmpty

/-- Model of `translate`: absent input gives absent output; a truthy raw `$filter`
is returned directly; otherwise the structured rendering is trimmed and
returned when non-empty, with `undefined` returned in its place when
empty. -/
def translate (filter : Option Filter) : Option String :=
  match filter with
  | none => none
  | some f =>
    if truthyOptStr f.dollarFilter then f.dollarFilter
    else
      let translated := jsTrim (translateFilter f)
      if translated.length > 0 then some translated else none

/-- A filter with no populated field. -/
def emptyFilter : Filter :=
  .mk none none none none none none none none none none none none none none none

/-- A filter whose only populated field is `and`. -/
def andNode (children : List Filter) : Filter :=
  .mk none (some children) none none none none none none none none none none none none none

/-- A filter whose only populated field is `or`. -/
def orNode (children : List Filter) : Filter :=
  .mk none none (some children) none none none none none none none none none none none none

/-- A filter whose only populated field is `not`. -/
def notNode (child : Filter) : Filter :=
  .mk none none none (some child) none none none none none none none none none none none

/-- A filter whose only populated field is `eq`. -/
def eqNode (entries : List (String × Value)) : Filter :=
  .mk none none none none (some entries) none none none none none none none none none none

/-- A filter whose only populated field is `gt`. -/
def gtNode (entries : List (String × Value)) : Filter :=
  .mk none none none none none none (some entries) none none none none none none none none

/-- A filter whose only populated field is `contains`. -/
def containsNode (entries : List (String × String)) : Filter :=
  .mk none none none none none none none none none none (some entries) none none none none

/-- A filter whose only populated field is `startsWith`. -/
def startsWithNode (entries : List (String × String)) : Filter :=
  .mk none none none none none none none none none none none (some entries) none none none

/-- A filter whose only populated field is `endsWith`. -/
def endsWithNode (entries : List (String × String)) : Filter :=
  .mk none none none none none none none none none none none none (some entries) none none

/-- A filter whose only populated field is `any`. -/
def anyNode (q : Quantifier) : Filter :=
  .mk none none none none none none none none none none none none none (some q) none

/-- A filter whose only populated field is `all`. -/
def allNode (q : Quantifier) : Filter :=
  .mk none none none none none none none none none none none none none none (some q)

/-- A filter whose only populated field is the raw `$filter` string. -/
def rawNode (s : String) : Filter :=
  .mk (some s) none none none none none none none none none none none none none none

end AzureAISearchFilterTranslator

namespace AzureAISearchVector

/-- Network requests that `upsert` can issue to the Azure AI Search
service, in the order the source awaits them: `describeIndex` performs
`indexClient.getIndex` then `searchClient.getDocumentsCount`;
`getVectorFieldName` performs `indexClient.getIndex`; finally
`searchClient.uploadDocuments` uploads the batch. -/
inductive ServiceCall where
  | getIndex
  | getDocumentsCount
  | uploadDocuments
deriving DecidableEq

/-- Model of `validateVectorDimensions`: walks the vectors in order and throws on
the first whose length differs from the declared dimension. -/
def validateVectorDimensions (vectors : List (List α)) (dimension : Nat) : Except String Unit :=
  go 0 vectors
where
  go : Nat → List (List α) → Except String Unit
  | _, [] => .ok ()
  | i, v :: rest =>
    if v.length ≠ dimension then
      .error ("Vector at index " ++ toString i ++ " has invalid dimension " ++
        toString v.length ++ ". Expected " ++ toString dimension ++ " dimensions.")
    else go (i + 1) rest

/-- Outcome of an `upsert` run: the service calls issued, in order, and
the dimension-validation error when validation threw. -/
structure UpsertTrace where
  calls : List ServiceCall
  error : Option String
deriving DecidableEq

/-- The service-interaction behaviour of `upsert`: it first awaits
`describeIndex` (`getIndex`, `getDocumentsCount`) to learn the index's
declared dimension, then validates every vector's length against it;
a mismatch throws before `getVectorFieldName` and the upload, while
success continues with `getVectorFieldName` (`getIndex`) and
`uploadDocuments`. -/
def upsert (declaredDimension : Nat) (vectors : List (List α)) : UpsertTrace :=
  let describeCalls := [ServiceCall.getIndex, ServiceCall.getDocumentsCount]
  match validateVectorDimensions vectors declaredDimension with
  | .error e => { calls := describeCalls, error := some e }
  | .ok _ =>
    { calls := describeCalls ++ [ServiceCall.getIndex, ServiceCall.uploadDocuments],
      error := none }

end AzureAISearchVector
end Mastra

namespace Mastra
namespace AzureAISearchFilterTranslator

/-- A string containing at least one character that `trim` would keep. -/
def hasNonSpace (s : String) : Bool := s.data.any (fun c => !isJsSpace c)

theorem arrayJoin_cons_cons (sep c c2 : String) (cs : List String) :
    arrayJoin sep (c :: c2 :: cs) = c ++ sep ++ arrayJoin sep (c2 :: cs) := rfl

theorem hasNonSpace_append (a b : String) :
    hasNonSpace (a ++ b) = (hasNonSpace a || hasNonSpace b) := by
  simp [hasNonSpace, String.data_append, List.any_append]

theorem hasNonSpace_arrayJoin_head (sep : String) {c : String} (cs : List String)
    (h : hasNonSpace c = true) : hasNonSpace (arrayJoin sep (c :: cs)) = true := by
  cases cs with
  | nil => simpa [arrayJoin] using h
  | cons c2 cs => rw [arrayJoin_cons_cons, hasNonSpace_append, hasNonSpace_append, h]; rfl

theorem jsTrim_ne_empty {s : String} (h : hasNonSpace s = true) : jsTrim s ≠ "" := by
  intro he
  have hd : (((s.data.dropWhile isJsSpace).reverse.dropWhile isJsSpace).reverse) = [] :=
    congrArg String.data he
  rw [List.reverse_eq_nil_iff, List.dropWhile_eq_nil_iff] at hd
  obtain ⟨c, hc, hcs⟩ := List.any_eq_true.mp h
  have hcf : isJsSpace c = false := by simpa using hcs
  have hsplit := List.takeWhile_append_dropWhile isJsSpace s.data
  rw [← hsplit] at hc
  rcases List.mem_append.mp hc with htk | hdr
  · exact absurd (List.mem_takeWhile_imp htk) (by simp [hcf])
  · exact absurd (hd c (List.mem_reverse.mpr hdr)) (by simp [hcf])

theorem string_ne_empty_length_pos {s : String} (h : s ≠ "") : 0 < s.length := by
  rcases s with ⟨l⟩
  have : l ≠ [] := by
    intro hl
    exact h (by simp [hl])
  simpa [String.length] using List.length_pos.mpr this

theorem mem_parenGroup {x kw : String} {conds : List String}
    (h : x ∈ parenGroup kw conds) : hasNonSpace x = true := by
  unfold parenGroup at h
  split at h
  · simp at h
  · simp at h
    have hp : hasNonSpace "(" = true := rfl
    simp [h, hasNonSpace_append, hp]

theorem mem_notGroup {x cond : String} (h : x ∈ notGroup cond) : hasNonSpace x = true := by
  unfold notGroup at h
  split at h
  · simp at h
  · simp at h
    have hp : hasNonSpace "not (" = true := rfl
    simp [h, hasNonSpace_append, hp]

theorem mem_translateComparison {x operator : String} {l : List (String × Value)}
    (h : x ∈ translateComparison l operator) (hop : hasNonSpace operator = true) :
    hasNonSpace x = true := by
  simp only [translateComparison, List.mem_map] at h
  obtain ⟨fv, _, rfl⟩ := h
  simp [hasNonSpace_append, hop]

theorem mem_optComparison {x operator : String} {o : Option (List (String × Value))}
    (h : x ∈ optComparison o operator) (hop : hasNonSpace operator = true) :
    hasNonSpace x = true := by
  cases o with
  | none => simp [optComparison] at h
  | some l => exact mem_translateComparison h hop

theorem mem_translateStringOperation {x functionName : String} {l : List (String × String)}
    (h : x ∈ translateStringOperation l functionName) : hasNonSpace x = true := by
  simp only [translateStringOperation, List.mem_map] at h
  obtain ⟨fv, _, rfl⟩ := h
  split
  · have hp : hasNonSpace "search.ismatch(" = true := rfl
    simp [hasNonSpace_append, hp]
  · have hp : hasNonSpace "(" = true := rfl
    simp [hasNonSpace_append, hp]

theorem mem_optStringOperation {x functionName : String} {o : Option (List (String × String))}
    (h : x ∈ optStringOperation o functionName) : hasNonSpace x = true := by
  cases o with
  | none => simp [optStringOperation] at h
  | some l => exact mem_translateStringOperation h

theorem mem_collectionGroup {x kw : String} {q : Option Quantifier}
    (h : x ∈ collectionGroup q kw) : hasNonSpace x = true := by
  cases q with
  | none => simp [collectionGroup] at h
  | some q =>
    simp [collectionGroup] at h
    have hp : hasNonSpace ")" = true := rfl
    simp [h, hasNonSpace_append, hp]

theorem mem_nodeConditions_hasNonSpace {x : String} {f : Filter}
    (h : x ∈ nodeConditions f) : hasNonSpace x = true := by
  rcases f with ⟨d, a, o, n, eqF, neF, gtF, geF, ltF, leF, cF, sF, eF, anF, alF⟩
  simp only [nodeConditions, List.mem_append] at h
  rcases h with ((((((((((((h | h) | h) | h) | h) | h) | h) | h) | h) | h) | h) | h) | h) | h
  · exact mem_parenGroup h
  · exact mem_parenGroup h
  · exact mem_notGroup h
  · exact mem_optComparison h rfl
  · exact mem_optComparison h rfl
  · exact mem_optComparison h rfl
  · exact mem_optComparison h rfl
  · exact mem_optComparison h rfl
  · exact mem_optComparison h rfl
  · exact mem_optStringOperation h
  · exact mem_optStringOperation h
  · exact mem_optStringOperation h
  · exact mem_collectionGroup h
  · exact mem_collectionGroup h

theorem jsTrim_translateFilter_eq_empty_iff (f : Filter) :
    jsTrim (translateFilter f) = "" ↔ translateFilter f = "" := by
  constructor
  · intro h
    by_contra hne
    have hconds : nodeConditions f ≠ [] := by
      intro hnil
      exact hne (by simp [translateFilter, hnil, arrayJoin])
    obtain ⟨c, cs, hcc⟩ := List.exists_cons_of_ne_nil hconds
    have hx : hasNonSpace (translateFilter f) = true := by
      rw [translateFilter, hcc]
      exact hasNonSpace_arrayJoin_head _ _
        (mem_nodeConditions_hasNonSpace (f := f) (by rw [hcc]; exact List.mem_cons_self c cs))
    exact jsTrim_ne_empty hx h
  · intro h
    rw [h]
    rfl

end AzureAISearchFilterTranslator
end Mastra

namespace Mastra
namespace AzureAISearchFilterTranslator

/-- A filter whose raw `$filter` is populated alongside several structured
fields, to exercise the precedence of the raw escape hatch. -/
def rawWithOthers : Filter :=
  .mk (some "category eq 'books'")
    (some [eqNode [("category", .str "electronics")]]) none
    (some (eqNode [("inStock", .boolean true)]))
    (some [("price", .num "10")]) none none none none none
    (some [("tags", "new")]) none none
    (some ⟨"stores", "s: s/name eq 'X'"⟩) none

/-- C1: `translate` yields `undefined` exactly for an absent input or for a
non-raw input whose structured rendering is the empty string; it never
yields the empty string itself, and in particular an `and` with zero
children and a filter with no populated field both yield `undefined`. -/
theorem translate_absent_exactly_on_empty_rendering :
    (∀ f : Option Filter, translate f = none ↔
      f = none ∨ ∃ g, f = some g ∧ truthyOptStr g.dollarFilter = false ∧ translateFilter g = "")
    ∧ (∀ f : Option Filter, translate f ≠ some "")
    ∧ translate (some (andNode [])) = none
    ∧ translate (some emptyFilter) = none := by
  refine ⟨?_, ?_, rfl, rfl⟩
  · intro f
    cases f with
    | none => simp [translate]
    | some g =>
      simp only [translate]
      by_cases ht : truthyOptStr g.dollarFilter = true
      · rw [if_pos ht]
        constructor
        · intro h
          cases hdf : g.dollarFilter with
          | none => rw [hdf] at ht; exact absurd ht (by simp [truthyOptStr])
          | some s => rw [hdf] at h; exact absurd h (by simp)
        · rintro (h | ⟨g', hg', htr, _⟩)
          · exact absurd h (by simp)
          · cases hg'; rw [ht] at htr; exact absurd htr (by simp)
      · rw [if_neg ht]
        have htf : truthyOptStr g.dollarFilter = false := by simpa using ht
        constructor
        · intro h
          split at h
          · exact absurd h (by simp)
          · rename_i hlen
            have hempty : jsTrim (translateFilter g) = "" := by
              by_contra hne
              exact hlen (string_ne_empty_length_pos hne)
            exact Or.inr ⟨g, rfl, htf, (jsTrim_translateFilter_eq_empty_iff g).mp hempty⟩
        · rintro (h | ⟨g', hg', _, htr⟩)
          · exact absurd h (by simp)
          · cases hg'
            rw [htr]
            simp [jsTrim]
  · intro f
    cases f with
    | none => simp [translate]
    | some g =>
      simp only [translate]
      by_cases ht : truthyOptStr g.dollarFilter = true
      · rw [if_pos ht]
        cases hdf : g.dollarFilter with
        | none => rw [hdf] at ht; exact absurd ht (by simp [truthyOptStr])
        | some s =>
          rw [hdf] at ht
          have hs : s ≠ "" := by
            intro hse
            rw [hse] at ht
            exact absurd ht (by decide)
          simpa using hs
      · rw [if_neg ht]
        split
        · rename_i hlen
          intro h
          have : jsTrim (translateFilter g) = "" := by injection h
          rw [this] at hlen
          simp [String.length] at hlen
        · simp

/-- C2: when the raw `$filter` field is populated (present and non-empty),
`translate` returns exactly that string, whatever the other fields are. -/
theorem translate_raw_verbatim (f : Filter) (s : String)
    (h1 : f.dollarFilter = some s) (h2 : s ≠ "") :
    translate (some f) = some s := by
  have hie : s.isEmpty = false := by
    cases hb : s.isEmpty
    · rfl
    · exact absurd ((String.isEmpty_iff s).mp hb) h2
  have ht : truthyOptStr (some s) = true := by
    simp [truthyOptStr, hie]
  simp only [translate, h1]
  rw [if_pos ht]

/-- Witness for C2 at a filter whose raw `$filter` coexists with populated
`and`, `not`, `eq`, `contains` and `any` fields. -/
theorem translate_raw_verbatim_witness :
    rawWithOthers.dollarFilter = some "category eq 'books'"
    ∧ "category eq 'books'" ≠ ""
    ∧ translate (some rawWithOthers) = some "category eq 'books'" :=
  ⟨rfl, by decide, translate_raw_verbatim rawWithOthers "category eq 'books'" rfl (by decide)⟩

/-- C3: field names pass through `escapeFieldName` unchanged and appear
verbatim in every rendering context other than the `contains` form — in
comparisons and in `startswith` / `endswith`, even when they contain
`/`, a space, or `-`. -/
theorem field_names_unchanged :
    (∀ field, escapeFieldName field = field)
    ∧ (∀ field v operator, translateComparison [(field, v)] operator
        = [field ++ " " ++ operator ++ " " ++ formatValue v])
    ∧ (∀ field v, translateStringOperation [(field, v)] "startswith"
        = ["startswith(" ++ field ++ ", " ++ formatValue (Value.str v) ++ ")"])
    ∧ (∀ field v, translateStringOperation [(field, v)] "endswith"
        = ["endswith(" ++ field ++ ", " ++ formatValue (Value.str v) ++ ")"])
    ∧ translateFilter (eqNode [("a-b/c d", .num "1")]) = "a-b/c d eq 1" :=
  ⟨fun _ => rfl, fun _ _ _ => rfl, fun _ _ => rfl, fun _ _ => rfl, rfl⟩

/-- C4: a populated `any` (resp. `all`) renders as
`<collection>/any(<predicate>)` (resp. `/all(`), with the caller's raw
predicate string inserted verbatim and no recursion into a sub-filter. -/
theorem any_all_predicate_verbatim :
    (∀ collection predicate, translateFilter (anyNode ⟨collection, predicate⟩)
        = collection ++ "/any(" ++ predicate ++ ")")
    ∧ (∀ collection predicate, translateFilter (allNode ⟨collection, predicate⟩)
        = collection ++ "/all(" ++ predicate ++ ")")
    ∧ translate (some (anyNode ⟨"stores", "s: s/name eq 'X'"⟩))
        = some "stores/any(s: s/name eq 'X')" :=
  ⟨fun _ _ => rfl, fun _ _ => rfl, rfl⟩

/-- C7: `formatValue` quotes strings and doubles every embedded single
quote, renders dates as their ISO string unquoted, booleans as lower-case
words, `null`/`undefined` as `null`, and numbers via their default string
conversion unquoted. -/
theorem formatValue_by_type :
    (∀ s, formatValue (.str s) = "'" ++ replaceQuotes s ++ "'")
    ∧ (∀ s, (replaceQuotes s).data
        = s.data.flatMap (fun c => if c = '\'' then [c, c] else [c]))
    ∧ (∀ isoString, formatValue (.date isoString) = isoString)
    ∧ formatValue (.boolean true) = "true"
    ∧ formatValue (.boolean false) = "false"
    ∧ formatValue .null = "null"
    ∧ formatValue .undefined = "null"
    ∧ (∀ jsString, formatValue (.num jsString) = jsString)
    ∧ formatValue (.str "Book's Title") = "'Book''s Title'" := by
  refine ⟨fun _ => rfl, ?_, fun _ => rfl, rfl, rfl, rfl, rfl, fun _ => rfl, rfl⟩
  intro s
  show replaceQuotesList s.data = _
  induction s.data with
  | nil => rfl
  | cons c cs ih =>
    simp only [replaceQuotesList, List.flatMap_cons]
    split
    · rename_i hc
      subst hc
      simp [ih]
    · rename_i hc
      simp [hc, ih]

/-- C8: `startsWith` / `endsWith` render as lower-case
`startswith(<field>, <value>)` / `endswith(<field>, <value>)` with the
field as an unquoted path, while `contains` renders as
`search.ismatch(<value>, '<field>')` with the field quoted — never as a
native `contains()` call. -/
theorem string_predicate_forms :
    (∀ field v, translateStringOperation [(field, v)] "startswith"
        = ["startswith(" ++ escapeFieldName field ++ ", " ++ formatValue (Value.str v) ++ ")"])
    ∧ (∀ field v, translateStringOperation [(field, v)] "endswith"
        = ["endswith(" ++ escapeFieldName field ++ ", " ++ formatValue (Value.str v) ++ ")"])
    ∧ (∀ field v, translateStringOperation [(field, v)] "contains"
        = ["search.ismatch(" ++ formatValue (Value.str v) ++ ", '" ++ field ++ "')"])
    ∧ translateFilter (containsNode [("description", "adventure")])
        = "search.ismatch('adventure', 'description')"
    ∧ "search.ismatch('adventure', 'description')".data.take "contains(".data.length
        ≠ "contains(".data :=
  ⟨fun _ _ => rfl, fun _ _ => rfl, fun _ _ => rfl, rfl, by decide⟩

/-- C10: a `$filter` that is present but equal to the empty string is not
returned verbatim: translation behaves exactly as if the raw field were
absent, and a filter whose only present field is `$filter: ""` yields
`undefined`, not the empty string. -/
theorem empty_raw_filter_falls_through
    (andF orF : Option (List Filter)) (notF : Option Filter)
    (eqF neF gtF geF ltF leF : Option (List (String × Value)))
    (containsF startsWithF endsWithF : Option (List (String × String)))
    (anyF allF : Option Quantifier) :
    translate (some (.mk (some "") andF orF notF eqF neF gtF geF ltF leF
        containsF startsWithF endsWithF anyF allF))
      = translate (some (.mk none andF orF notF eqF neF gtF geF ltF leF
        containsF startsWithF endsWithF anyF allF))
    ∧ translate (some (rawNode "")) = none :=
  ⟨rfl, rfl⟩

theorem childTranslations_eq_map (fs : List Filter) :
    childTranslations fs = fs.map translateFilter := by
  induction fs with
  | nil => rfl
  | cons f fs ih => simp only [childTranslations, List.map, ih]; rfl

theorem append_mid (x y a b c m : String) (h : a ++ b ++ c = m) :
    x ++ a ++ b ++ c ++ y = x ++ m ++ y := by
  rw [String.append_assoc x a b, String.append_assoc x (a ++ b) c, h]

/-- C5: a node with several populated fields renders every one of them,
collects the condition strings in the fixed order and, or, not, eq, ne,
gt, ge, lt, le, contains, startsWith, endsWith, any, all, and joins them
all with the literal infix `" and "`. -/
theorem conditions_fixed_order_and_join
    (andF orF : Option (List Filter)) (notF : Option Filter)
    (eqF neF gtF geF ltF leF : Option (List (String × Value)))
    (containsF startsWithF endsWithF : Option (List (String × String)))
    (anyF allF : Option Quantifier) :
    translateFilter (.mk none andF orF notF eqF neF gtF geF ltF leF
        containsF startsWithF endsWithF anyF allF)
    = arrayJoin " and "
      ((match andF with
        | none => []
        | some children =>
          if ((children.map translateFilter).filter (fun s => !s.isEmpty)).isEmpty then []
          else ["(" ++ arrayJoin " and "
            ((children.map translateFilter).filter (fun s => !s.isEmpty)) ++ ")"])
      ++ (match orF with
          | none => []
          | some children =>
            if ((children.map translateFilter).filter (fun s => !s.isEmpty)).isEmpty then []
            else ["(" ++ arrayJoin " or "
              ((children.map translateFilter).filter (fun s => !s.isEmpty)) ++ ")"])
      ++ (match notF with
          | none => []
          | some child =>
            if (translateFilter child).isEmpty then []
            else ["not (" ++ translateFilter child ++ ")"])
      ++ (match eqF with
          | none => []
          | some l => l.map (fun fv => fv.1 ++ " eq " ++ formatValue fv.2))
      ++ (match neF with
          | none => []
          | some l => l.map (fun fv => fv.1 ++ " ne " ++ formatValue fv.2))
      ++ (match gtF with
          | none => []
          | some l => l.map (fun fv => fv.1 ++ " gt " ++ formatValue fv.2))
      ++ (match geF with
          | none => []
          | some l => l.map (fun fv => fv.1 ++ " ge " ++ formatValue fv.2))
      ++ (match ltF with
          | none => []
          | some l => l.map (fun fv => fv.1 ++ " lt " ++ formatValue fv.2))
      ++ (match leF with
          | none => []
          | some l => l.map (fun fv => fv.1 ++ " le " ++ formatValue fv.2))
      ++ (match containsF with
          | none => []
          | some l => l.map (fun fv =>
              "search.ismatch(" ++ formatValue (Value.str fv.2) ++ ", '" ++ fv.1 ++ "')"))
      ++ (match startsWithF with
          | none => []
          | some l => l.map (fun fv =>
              "startswith(" ++ fv.1 ++ ", " ++ formatValue (Value.str fv.2) ++ ")"))
      ++ (match endsWithF with
          | none => []
          | some l => l.map (fun fv =>
              "endswith(" ++ fv.1 ++ ", " ++ formatValue (Value.str fv.2) ++ ")"))
      ++ (match anyF with
          | none => []
          | some q => [q.collection ++ "/any(" ++ q.predicate ++ ")"])
      ++ (match allF with
          | none => []
          | some q => [q.collection ++ "/all(" ++ q.predicate ++ ")"])) := by
  have hA : ∀ (o : Option (List Filter)) (kw : String),
      parenGroup kw (List.filter (fun s => !s.isEmpty) (optChildTranslations o))
      = (match o with
         | none => []
         | some children =>
           if ((children.map translateFilter).filter (fun s => !s.isEmpty)).isEmpty then []
           else ["(" ++ arrayJoin kw
             ((children.map translateFilter).filter (fun s => !s.isEmpty)) ++ ")"]) := by
    intro o kw
    cases o with
    | none => rfl
    | some children =>
      simp only [optChildTranslations, childTranslations_eq_map]
      rfl
  have hN : notGroup (optChildTranslation notF)
      = (match notF with
         | none => []
         | some child =>
           if (translateFilter child).isEmpty then []
           else ["not (" ++ translateFilter child ++ ")"]) := by
    cases notF <;> rfl
  have hC : ∀ (o : Option (List (String × Value))) (w m : String),
      " " ++ w ++ " " = m →
      optComparison o w
      = (match o with
         | none => []
         | some l => l.map (fun fv => fv.1 ++ m ++ formatValue fv.2)) := by
    intro o w m hm
    cases o with
    | none => rfl
    | some l =>
      simp only [optComparison, translateComparison]
      exact List.map_congr_left fun fv _ => append_mid fv.1 (formatValue fv.2) " " w " " m hm
  have hCO : optStringOperation containsF "contains"
      = (match containsF with
         | none => []
         | some l => l.map (fun fv =>
             "search.ismatch(" ++ formatValue (Value.str fv.2) ++ ", '" ++ fv.1 ++ "')")) := by
    cases containsF <;> rfl
  have hSW : optStringOperation startsWithF "startswith"
      = (match startsWithF with
         | none => []
         | some l => l.map (fun fv =>
             "startswith(" ++ fv.1 ++ ", " ++ formatValue (Value.str fv.2) ++ ")")) := by
    cases startsWithF <;> rfl
  have hEW : optStringOperation endsWithF "endswith"
      = (match endsWithF with
         | none => []
         | some l => l.map (fun fv =>
             "endswith(" ++ fv.1 ++ ", " ++ formatValue (Value.str fv.2) ++ ")")) := by
    cases endsWithF <;> rfl
  have hAny : collectionGroup anyF "/any("
      = (match anyF with
         | none => []
         | some q => [q.collection ++ "/any(" ++ q.predicate ++ ")"]) := by
    cases anyF <;> rfl
  have hAll : collectionGroup allF "/all("
      = (match allF with
         | none => []
         | some q => [q.collection ++ "/all(" ++ q.predicate ++ ")"]) := by
    cases allF <;> rfl
  simp only [translateFilter, nodeConditions]
  rw [hA andF " and ", hA orF " or ", hN, hC eqF "eq" " eq " rfl, hC neF "ne" " ne " rfl,
    hC gtF "gt" " gt " rfl, hC geF "ge" " ge " rfl, hC ltF "lt" " lt " rfl,
    hC leF "le" " le " rfl, hCO, hSW, hEW, hAny, hAll]
  rfl

/-- C6: an `and` node translates each child, drops children rendering
empty, joins the survivors with `" and "` and wraps them in one pair of
parentheses when at least one survives; `or` is identical with `" or "`;
a `not` node with a non-empty child renders as `not (` + child + `)`. -/
theorem and_or_not_rendering :
    (∀ children : List Filter, translateFilter (andNode children)
      = (if ((children.map translateFilter).filter (fun s => !s.isEmpty)).isEmpty then ""
         else "(" ++ arrayJoin " and "
           ((children.map translateFilter).filter (fun s => !s.isEmpty)) ++ ")"))
    ∧ (∀ children : List Filter, translateFilter (orNode children)
      = (if ((children.map translateFilter).filter (fun s => !s.isEmpty)).isEmpty then ""
         else "(" ++ arrayJoin " or "
           ((children.map translateFilter).filter (fun s => !s.isEmpty)) ++ ")"))
    ∧ (∀ child : Filter, translateFilter (notNode child)
      = (if (translateFilter child).isEmpty then ""
         else "not (" ++ translateFilter child ++ ")"))
    ∧ translateFilter (andNode [eqNode [("category", .str "electronics")],
        gtNode [("price", .num "10")]])
      = "(category eq 'electronics' and price gt 10)" := by
  refine ⟨?_, ?_, ?_, rfl⟩
  · intro children
    simp only [translateFilter, andNode, nodeConditions, optChildTranslations,
      childTranslations_eq_map, optChildTranslation, optComparison, optStringOperation,
      collectionGroup, notGroup, parenGroup]
    have he : ("" : String).isEmpty = true := rfl
    simp only [he, if_true, List.filter_nil, List.isEmpty_nil, List.append_nil, List.nil_append]
    split <;> rfl
  · intro children
    simp only [translateFilter, orNode, nodeConditions, optChildTranslations,
      childTranslations_eq_map, optChildTranslation, optComparison, optStringOperation,
      collectionGroup, notGroup, parenGroup]
    have he : ("" : String).isEmpty = true := rfl
    simp only [he, if_true, List.filter_nil, List.isEmpty_nil, List.append_nil, List.nil_append]
    split <;> rfl
  · intro child
    simp only [translateFilter, notNode, nodeConditions, optChildTranslations,
      optChildTranslation, optComparison, optStringOperation,
      collectionGroup, notGroup, parenGroup]
    have he : ("" : String).isEmpty = true := rfl
    simp only [he, if_true, List.filter_nil, List.isEmpty_nil, List.append_nil, List.nil_append]
    split <;> rfl

end AzureAISearchFilterTranslator

namespace AzureAISearchVector

theorem validate_error_of_mismatch {α : Type} (vectors : List (List α)) (dimension : Nat)
    (h : ∃ v ∈ vectors, v.length ≠ dimension) :
    ∃ e, validateVectorDimensions vectors dimension = .error e := by
  show ∃ e, validateVectorDimensions.go dimension 0 vectors = .error e
  generalize 0 = i
  induction vectors generalizing i with
  | nil => simp at h
  | cons v rest ih =>
    by_cases hv : v.length ≠ dimension
    · exact ⟨_, by unfold validateVectorDimensions.go; rw [if_pos hv]⟩
    · have hrest : ∃ w ∈ rest, w.length ≠ dimension := by
        rcases h with ⟨w, hw, hwl⟩
        rcases List.mem_cons.mp hw with rfl | hw'
        · exact absurd hwl hv
        · exact ⟨w, hw', hwl⟩
      obtain ⟨e, he⟩ := ih hrest (i + 1)
      exact ⟨e, by simp [validateVectorDimensions.go, hv, he]⟩

/-- C9, counterexample: upserting a 1-dimensional vector into an index
whose declared dimension is 2 is rejected by the dimension check, but the
two `describeIndex` service calls have already been issued at that point —
the rejection does not precede every network call. -/
theorem upsert_mismatch_calls_precede_rejection :
    (upsert 2 [[(0 : Int)]]).error.isSome = true
    ∧ (upsert 2 [[(0 : Int)]]).calls = [ServiceCall.getIndex, ServiceCall.getDocumentsCount] :=
  ⟨rfl, rfl⟩

/-- C9, amended: when some vector's length differs from the index's
declared dimension, `upsert` is rejected by the dimension check and no
`uploadDocuments` call is ever issued; the rejection follows only the
`describeIndex` calls needed to learn the declared dimension. -/
theorem upsert_mismatch_rejected_before_upload {α : Type}
    (dimension : Nat) (vectors : List (List α))
    (h : ∃ v ∈ vectors, v.length ≠ dimension) :
    (upsert dimension vectors).error.isSome = true
    ∧ ServiceCall.uploadDocuments ∉ (upsert dimension vectors).calls := by
  obtain ⟨e, he⟩ := validate_error_of_mismatch vectors dimension h
  refine ⟨?_, ?_⟩ <;> simp [upsert, he]

/-- Witness for the amended C9 at a concrete mismatching upsert. -/
theorem upsert_mismatch_rejected_before_upload_witness :
    (∃ v ∈ [[(0 : Int)]], v.length ≠ 2)
    ∧ ((upsert 2 [[(0 : Int)]]).error.isSome = true
       ∧ ServiceCall.uploadDocuments ∉ (upsert 2 [[(0 : Int)]]).calls) :=
  ⟨by decide, upsert_mismatch_rejected_before_upload 2 [[(0 : Int)]] (by decide)⟩

end AzureAISearchVector
end Mastra
